import Mathlib

/-!
Verification of the color-extractor pipeline (`src/extract.ts`).

The file shallowly embeds the program's data model and operations:

* `ChildNode` models the postcss node variants (`rule`, `atrule`, `decl`,
  `comment`) that `recursion` dispatches on (`node.type === 'rule'` /
  `'decl'`, everything else ignored).
* `findMatches` / `jsMatch` embed the JavaScript
  `value.match(/(^#...$)|(rgba?\(...\)$)/gi)` call of `extract.ts`:
  the scanner attempts the alternation at every start position from left to
  right; the hex alternative is anchored at both ends (`^...$`) and the
  rgb alternative at the end (`...$`), so any successful match spans to the
  end of the string.
* `csGetRgb` / `csToHex` embed the `color-string` library functions
  `cs.get` / `cs.to.hex` used to normalize a matched token (on the token
  shapes reachable from the extractor's regex: hex literals and comma
  separated `rgb()`/`rgba()` notation; the percent and keyword forms of the
  library cannot be produced by the extractor's regex — its matches contain
  no `%` and start with `#` or `rgb` — and are modeled as no-match).
* `walkList`/`recursion` embed the recursive tree walk, with JavaScript's
  insertion-ordered `Set` represented by an append-if-new list
  (`insertColor`).
* `toTwoDimensional`, `toSvgAsString`, `getSearchParams`, `mainE` and
  `handler` embed the remaining functions; the network fetch, unzip and
  postcss parse are external capabilities and are passed in as
  `Except`-valued parameters, mirroring the `try/catch` boundary of the
  handler.
-/

namespace ColorExtractor

/-- postcss child nodes as consumed by `recursion` in `extract.ts`: a rule
with child nodes, an at-rule with child nodes, a declaration carrying its
value string, or a comment.  Only the `type` tags `'rule'` and `'decl'` are
inspected by the program. -/
inductive ChildNode where
  | rule (nodes : List ChildNode)
  | atrule (nodes : List ChildNode)
  | decl (value : String)
  | comment (text : String)

/-- `[0-9A-Fa-f]`, the hex-digit character class of the extraction regex. -/
def isHexDigitChar (c : Char) : Bool :=
  c.isDigit || ('a' ≤ c && c ≤ 'f') || ('A' ≤ c && c ≤ 'F')

/-- First alternative of the extraction regex,
`^#{1}[0-9A-Fa-f]{3}([0-9A-Fa-f]{3})?$`: the whole string is `#` followed
by exactly 3 or 6 hex digits. -/
def hexBranch (l : List Char) : Bool :=
  match l with
  | c :: rest => c == '#' && (rest.length == 3 || rest.length == 6) && rest.all isHexDigitChar
  | [] => false

/-- Consume the regex piece ` *` (literal spaces, greedily). -/
def skipSpaces (l : List Char) : List Char :=
  match l with
  | ' ' :: rest => skipSpaces rest
  | other => other

/-- Consume `\d*\.?\d+` greedily (the sign has already been handled);
returns the rest of the input, or `none` when the piece cannot match here.
Greedy matching with backtracking is equivalent to maximal munch for this
piece because every continuation in the regex (` *,`, ` *)`, `)`) starts
with a character that can extend neither `\d*` nor `\d+`. -/
def numTail (l : List Char) : Option (List Char) :=
  let s1 := l.span (fun c => c.isDigit)
  match s1.2 with
  | '.' :: r2 =>
      let s2 := r2.span (fun c => c.isDigit)
      if s2.1.isEmpty then (if s1.1.isEmpty then none else some s1.2)
      else some s2.2
  | _ => if s1.1.isEmpty then none else some s1.2

/-- Consume `[+-]?\d*\.?\d+` greedily. -/
def numConsume (l : List Char) : Option (List Char) :=
  match l with
  | '+' :: rest => numTail rest
  | '-' :: rest => numTail rest
  | _ => numTail l

/-- Match `\( *num *, *num *, *num(?: *, *num *)?\)$` against the whole
remaining input (the part of the rgb alternative after `rgba?`).  The
optional-alpha group is attempted first and the bare `\)` second, matching
the regex engine's greedy preference; note that the 3-channel form allows
no spaces before `\)`, exactly as in the source pattern. -/
def rgbTail (l : List Char) : Bool :=
  match l with
  | '(' :: r0 =>
      (match numConsume (skipSpaces r0) with
       | none => false
       | some r1 =>
         match skipSpaces r1 with
         | ',' :: r2 =>
           (match numConsume (skipSpaces r2) with
            | none => false
            | some r3 =>
              match skipSpaces r3 with
              | ',' :: r4 =>
                (match numConsume (skipSpaces r4) with
                 | none => false
                 | some r5 =>
                   (match skipSpaces r5 with
                    | ',' :: r6 =>
                      (match numConsume (skipSpaces r6) with
                       | none => false
                       | some r7 => skipSpaces r7 == [')'])
                    | _ => false)
                   || r5 == [')'])
              | _ => false)
         | _ => false)
  | _ => false

/-- Second alternative of the extraction regex,
`rgba?\( *num *, *num *, *num(?: *, *num *)?\)$` with the `i` flag: it may
start anywhere but must extend to the end of the string. -/
def rgbBranch (l : List Char) : Bool :=
  match l with
  | r :: g :: b :: rest =>
      (r == 'r' || r == 'R') && (g == 'g' || g == 'G') && (b == 'b' || b == 'B') &&
      (match rest with
       | a :: rest2 => if a == 'a' || a == 'A' then rgbTail rest2 else rgbTail rest
       | [] => false)
  | _ => false

/-- One attempt of the alternation at the current position: the hex
alternative applies only at the very start of the string (its `^` anchor),
and either alternative must consume the entire remaining suffix (their `$`
anchors). -/
def attemptAt (atStart : Bool) (l : List Char) : Bool :=
  (atStart && hexBranch l) || rgbBranch l

/-- The global-flag matching loop of `String.prototype.match`: try the
pattern at each position from left to right.  A successful match spans the
entire remaining suffix (both alternatives are `$`-anchored), so the scan
resumes at `lastIndex = end of string`, where no further match exists —
hence a single successful attempt produces the final singleton result. -/
def findMatches : List Char → Bool → List (List Char)
  | [], _ => []
  | c :: rest, atStart =>
      if attemptAt atStart (c :: rest) then [c :: rest]
      else findMatches rest false

/-- `value.match(colorRegex)` from `extract.ts`, as the list of matched
substrings (empty list standing for a `null` result). -/
def jsMatch (s : String) : List String :=
  (findMatches s.data true).map String.mk

/-- An exact fraction `num / den` (`den` positive in every construction
here).  JavaScript numbers are binary floating point; the alpha values
reaching `color-string` in this program are decimal literals and small
fractions, modeled exactly by their mathematical value. -/
structure Frac where
  num : Int
  den : Nat
deriving DecidableEq

/-- `v < 1` for a fraction with positive denominator. -/
def Frac.lt1 (v : Frac) : Bool := v.num < Int.ofNat v.den

/-- `v < 0`. -/
def Frac.lt0 (v : Frac) : Bool := v.num < 0

/-- `1 < v`. -/
def Frac.gt1 (v : Frac) : Bool := Int.ofNat v.den < v.num

/-- `Math.round(v * 255)` for `0 ≤ v`:
`⌊255·num/den + 1/2⌋ = (510·num + den) / (2·den)` by floor division. -/
def Frac.roundTimes255 (v : Frac) : Nat :=
  (2 * 255 * v.num.toNat + v.den) / (2 * v.den)

/-- A parsed color as produced by `color-string`'s `cs.get(...).value`:
clamped RGB channels and an alpha value; `a = none` models a `NaN` alpha
(every numeric comparison with it is false). -/
structure Rgba where
  r : Nat
  g : Nat
  b : Nat
  a : Option Frac
deriving DecidableEq

/-- The value of a single hex digit, case-insensitively (`[a-f0-9]` with
the `i` flag in `color-string`'s hex regexes). -/
def hexVal (c : Char) : Option Nat :=
  if '0' ≤ c && c ≤ '9' then some (c.toNat - 48)
  else if 'a' ≤ c && c ≤ 'f' then some (c.toNat - 87)
  else if 'A' ≤ c && c ≤ 'F' then some (c.toNat - 55)
  else none

/-- The hex paths of `color-string`'s `cs.get.rgb`: after the leading `#`,
`^#([a-f0-9]{6})([a-f0-9]{2})?$/i` (6-digit, optional alpha byte) is tried
first, then `^#([a-f0-9]{3,4})$/i` (abbreviated digits are doubled,
`parseInt(c + c, 16) = 17 * value`).  Channels parsed this way lie in
`0..255` and the alpha in `0..1`, so the library's final clamp is the
identity on them. -/
def csHexBody : List Char → Option Rgba
  | [a, b, c] => do
      let va ← hexVal a
      let vb ← hexVal b
      let vc ← hexVal c
      pure ⟨17 * va, 17 * vb, 17 * vc, some ⟨1, 1⟩⟩
  | [a, b, c, d] => do
      let va ← hexVal a
      let vb ← hexVal b
      let vc ← hexVal c
      let vd ← hexVal d
      pure ⟨17 * va, 17 * vb, 17 * vc, some ⟨Int.ofNat (17 * vd), 255⟩⟩
  | [a, b, c, d, e, f] => do
      let va ← hexVal a
      let vb ← hexVal b
      let vc ← hexVal c
      let vd ← hexVal d
      let ve ← hexVal e
      let vf ← hexVal f
      pure ⟨16 * va + vb, 16 * vc + vd, 16 * ve + vf, some ⟨1, 1⟩⟩
  | [a, b, c, d, e, f, g, h] => do
      let va ← hexVal a
      let vb ← hexVal b
      let vc ← hexVal c
      let vd ← hexVal d
      let ve ← hexVal e
      let vf ← hexVal f
      let vg ← hexVal g
      let vh ← hexVal h
      pure ⟨16 * va + vb, 16 * vc + vd, 16 * ve + vf,
            some ⟨Int.ofNat (16 * vg + vh), 255⟩⟩
  | _ => none

/-- Digit run to its decimal value. -/
def digitsToNat (ds : List Char) : Nat :=
  ds.foldl (fun n c => 10 * n + (c.toNat - 48)) 0

/-- Consume `\s*` (JavaScript whitespace). -/
def skipWs (l : List Char) : List Char :=
  match l with
  | c :: rest => if c.isWhitespace then skipWs rest else c :: rest
  | [] => []

/-- Consume an integer channel `([+-]?\d+)` of `color-string`'s rgba
regex, returning its (signed) value and the rest. -/
def intChan (l : List Char) : Option (Int × List Char) :=
  match l with
  | '+' :: rest =>
      let s := rest.span (fun c => c.isDigit)
      if s.1.isEmpty then none else some ((digitsToNat s.1 : Int), s.2)
  | '-' :: rest =>
      let s := rest.span (fun c => c.isDigit)
      if s.1.isEmpty then none else some (-(digitsToNat s.1 : Int), s.2)
  | _ =>
      let s := l.span (fun c => c.isDigit)
      if s.1.isEmpty then none else some ((digitsToNat s.1 : Int), s.2)

/-- JavaScript `parseFloat` on the digit-and-dot tokens admitted by
`color-string`'s alpha group `([+-]?[\d.]+)`: the longest prefix of shape
`\d*(\.\d*)?` containing at least one digit is converted; `none` models a
`NaN` result (no digit in the readable prefix). -/
def jsParseFloatCore (l : List Char) : Option Frac :=
  let ip := l.span (fun c => c.isDigit)
  match ip.2 with
  | '.' :: r2 =>
      let fp := r2.span (fun c => c.isDigit)
      if ip.1.isEmpty && fp.1.isEmpty then none
      else some ⟨Int.ofNat (digitsToNat ip.1 * 10 ^ fp.1.length + digitsToNat fp.1),
                 10 ^ fp.1.length⟩
  | _ => if ip.1.isEmpty then none else some ⟨Int.ofNat (digitsToNat ip.1), 1⟩

/-- `parseFloat` including the sign character. -/
def jsParseFloat (l : List Char) : Option Frac :=
  match l with
  | '+' :: rest => jsParseFloatCore rest
  | '-' :: rest => (jsParseFloatCore rest).map (fun v => ⟨-v.num, v.den⟩)
  | _ => jsParseFloatCore l

/-- Consume the alpha token `([+-]?[\d.]+)` greedily, returning the
consumed characters (sign included) and the rest. -/
def alphaTok (l : List Char) : Option (List Char × List Char) :=
  match l with
  | '+' :: rest =>
      let s := rest.span (fun c => c.isDigit || c == '.')
      if s.1.isEmpty then none else some ('+' :: s.1, s.2)
  | '-' :: rest =>
      let s := rest.span (fun c => c.isDigit || c == '.')
      if s.1.isEmpty then none else some ('-' :: s.1, s.2)
  | _ =>
      let s := l.span (fun c => c.isDigit || c == '.')
      if s.1.isEmpty then none else some (s.1, s.2)

/-- The part of `color-string`'s rgba regex after `rgba?`:
`\(\s*([+-]?\d+)\s*,\s*([+-]?\d+)\s*,\s*([+-]?\d+)\s*(?:,\s*([+-]?[\d.]+)\s*)?\)$`,
matched against the whole remaining input.  Returns the three signed
channels and the optional alpha (`some none` standing for a present but
`NaN` alpha).  Newer releases of the library additionally accept
space-separated channels and slash- or percent-style alpha, none of which
can occur in a token produced by the extractor's regex, so the comma form
modeled here coincides with every library version on all reachable
tokens. -/
def csRgbaTail (l : List Char) : Option (Int × Int × Int × Option (Option Frac)) :=
  match l with
  | '(' :: r0 => do
      let (c1, r1) ← intChan (skipWs r0)
      match skipWs r1 with
      | ',' :: r2 => do
          let (c2, r3) ← intChan (skipWs r2)
          match skipWs r3 with
          | ',' :: r4 => do
              let (c3, r5) ← intChan (skipWs r4)
              match skipWs r5 with
              | ',' :: r6 =>
                  (match alphaTok (skipWs r6) with
                   | none => none
                   | some (tok, r7) =>
                       if skipWs r7 == [')'] then
                         some (c1, c2, c3, some (jsParseFloat tok))
                       else none)
              | other => if other == [')'] then some (c1, c2, c3, none) else none
          | _ => none
      | _ => none
  | _ => none

/-- The functional-notation path of `cs.get.rgb`: the rgba regex is
case-sensitive (`rgb`/`rgba` lowercase, no `i` flag). -/
def csRgbaFunc (l : List Char) : Option (Int × Int × Int × Option (Option Frac)) :=
  match l with
  | 'r' :: 'g' :: 'b' :: rest =>
      (match rest with
       | 'a' :: rest2 => if rest2.head? == some '(' then csRgbaTail rest2 else csRgbaTail rest
       | _ => csRgbaTail rest)
  | _ => none

/-- `clamp(num, 0, 255)` on a channel
(`Math.min(Math.max(num, 0), 255)`). -/
def clampChan (i : Int) : Nat :=
  if i < 0 then 0 else if 255 < i then 255 else i.toNat

/-- `clamp(num, 0, 1)` on the alpha, `Math.min(Math.max(num, 0), 1)`
(a `NaN` alpha stays `NaN`). -/
def clampAlpha (q : Option Frac) : Option Frac :=
  q.map (fun x => if x.lt0 then ⟨0, 1⟩ else if x.gt1 then ⟨1, 1⟩ else x)

/-- `cs.get(string).value` from the `color-string` library, on the token
shapes reachable from the extractor's regex.  Strings starting with `#`
take the hex paths; otherwise the case-sensitive rgba functional regex is
tried.  The percent (`rgb(x%,…)`) and keyword (`red`, …) paths of the
library are unreachable here (the extractor's matches contain no `%` and
never consist of word characters only) and are modeled as no-match.  The
final loop clamps channels to `0..255` and the alpha to `0..1`. -/
def csGetRgb (s : String) : Option Rgba :=
  match s.data with
  | '#' :: ds => csHexBody ds
  | l =>
      match csRgbaFunc l with
      | some (c1, c2, c3, al) =>
          some ⟨clampChan c1, clampChan c2, clampChan c3,
                match al with
                | none => some ⟨1, 1⟩
                | some q => clampAlpha q⟩
      | none => none

/-- The two-digit uppercase hex form of a byte, `hexDouble` in
`color-string` (`Math.round(num).toString(16).toUpperCase()` padded to two
digits; every argument it receives in this program lies in `0..255`). -/
def hexDouble (n : Nat) : String :=
  String.mk [(if n / 16 < 10 then Char.ofNat (48 + n / 16) else Char.ofNat (55 + n / 16)),
             (if n % 16 < 10 then Char.ofNat (48 + n % 16) else Char.ofNat (55 + n % 16))]

/-- `cs.to.hex` from the `color-string` library: `#` followed by the three
channel bytes, with the rounded alpha byte appended only when the alpha
compares less than `1` (a `NaN` alpha does not, so it is omitted). -/
def csToHex (c : Rgba) : String :=
  "#" ++ hexDouble c.r ++ hexDouble c.g ++ hexDouble c.b ++
    (match c.a with
     | some q => if q.lt1 then hexDouble q.roundTimes255 else ""
     | none => "")

/-- The Normalizer: `cs.get` followed by `cs.to.hex` as applied to each
matched token in `recursion` (a `null` parse yields no color and the token
is skipped). -/
def normalizeToken (s : String) : Option String :=
  (csGetRgb s).map csToHex

/-- The colors contributed by one declaration value, in match order:
every regex match that `cs.get` accepts, normalized. -/
def declColors (v : String) : List String :=
  (jsMatch v).filterMap normalizeToken

/-- `Set.prototype.add`: a JavaScript `Set` iterates in insertion order
and adding an existing element leaves its position unchanged, so it is an
append-if-new list. -/
def insertColor (acc : List String) (c : String) : List String :=
  if c ∈ acc then acc else acc ++ [c]

/-- Adding every element of a list to the set, in order (the `for … of`
loops feeding `hexColors.add`). -/
def insertAll (acc : List String) (l : List String) : List String :=
  l.foldl insertColor acc

mutual
/-- One iteration of the `for (const node of nodes)` loop in `recursion`:
a `rule` node contributes the colors of a fresh recursive walk of its
children, a `decl` node the normalized matches of its value; other node
types (`atrule`, `comment`) are ignored. -/
def walkNode (acc : List String) : ChildNode → List String
  | ChildNode.rule ns => insertAll acc (walkList [] ns)
  | ChildNode.atrule _ => acc
  | ChildNode.decl v => insertAll acc (declColors v)
  | ChildNode.comment _ => acc

/-- The loop of `recursion` threading the `hexColors` set through the
node sequence. -/
def walkList (acc : List String) : List ChildNode → List String
  | [] => acc
  | n :: rest => walkList (walkNode acc n) rest
end

/-- `recursion` from `extract.ts`: walk a node sequence starting from a
fresh empty set. -/
def recursion (nodes : List ChildNode) : List String :=
  walkList [] nodes

/-- `toTwoDimensional` from `extract.ts`:
`arr.flatMap((_, i, a) => (i % size ? [] : [a.slice(i, i + size)]))` —
the element at each index that is a multiple of `size` is replaced by the
slice of length `size` starting there, every other element by nothing. -/
def toTwoDimensional (arr : List String) (size : Nat) : List (List String) :=
  (List.range arr.length).flatMap fun i =>
    if i % size = 0 then [(arr.drop i).take size] else []

/-- `cssLangReg.test(request)` for `new RegExp("\\.(css)($|\\?)")`: some
position of the string starts `.css` followed by the end of the string or
a `?` (case-sensitively; the regex has no flags). -/
def isCSSRequest : List Char → Bool
  | [] => false
  | '.' :: 'c' :: 's' :: 's' :: rest =>
      rest.isEmpty || rest.head? == some '?' || isCSSRequest ('c' :: 's' :: 's' :: rest)
  | _ :: rest => isCSSRequest rest

/-- The `Options` type of `extract.ts`. -/
structure Options where
  repo : String
  owner : String
  branch : String
deriving DecidableEq

/-- `getSearchParams` from `extract.ts`, with the request URL's query
string abstracted as its list of key/value pairs (`URLSearchParams.has`
is a key-membership test and `.get` returns the first value of the key;
`get(k) || ''` turns a missing value into `""`, which `getD` reproduces).
The function returns `null` unless all of `repo`, `owner` and `branch`
are present. -/
def getSearchParams (searchParams : List (String × String)) : Option Options :=
  if (searchParams.lookup "repo").isNone || (searchParams.lookup "owner").isNone
      || (searchParams.lookup "branch").isNone then
    none
  else
    some ⟨(searchParams.lookup "repo").getD "",
          (searchParams.lookup "owner").getD "",
          (searchParams.lookup "branch").getD ""⟩

/-- One `<rect …/>` fragment as built in the inner loop of
`toSvgAsString`, for row `i` and column `j`. -/
def rectString (i j : Nat) (color : String) : String :=
  "<rect x=\"" ++ toString (j * 64) ++ "\" y=\"" ++ toString (i * 64) ++
    "\" width=\"64\" height=\"64\" fill=\"" ++ color ++ "\" />"

/-- The opening `<svg …>` template literal of `toSvgAsString` (its width
and viewBox use `64 * 10`, its height `64 * rows`). -/
def svgOpen (rows : Nat) : String :=
  "<svg\n  width=\"" ++ toString (64 * 10) ++ "\"\n  height=\"" ++
    toString (64 * rows) ++ "\"\n  viewBox=\"0 0 " ++ toString (64 * 10) ++ " " ++
    toString (64 * rows) ++ "\"\n  fill=\"none\"\n  xmlns=\"http://www.w3.org/2000/svg\"\n>"

/-- The inner `for (let j …)` loop: append one rect per cell of the row,
threading the accumulated string. -/
def svgRowLoop (s : String) (i j : Nat) : List String → String
  | [] => s
  | c :: cs => svgRowLoop (s ++ rectString i j c) i (j + 1) cs

/-- The outer `for (let i …)` loop over the rows. -/
def svgRowsLoop (s : String) (i : Nat) : List (List String) → String
  | [] => s
  | row :: rows => svgRowsLoop (svgRowLoop s i 0 row) (i + 1) rows

/-- `toSvgAsString` from `extract.ts`: the opening tag, one rect per grid
cell accumulated in row-major order, and the closing tag. -/
def toSvgAsString (g : List (List String)) : String :=
  svgRowsLoop (svgOpen g.length) 0 g ++ "</svg>"

/-- An entry of the unzipped archive: its path and its content decoded as
text (`file.path` / `(await file.buffer()).toString()`).  Content is
modeled eagerly; the lazy read only matters for efficiency. -/
structure ArchiveEntry where
  path : String
  content : String

/-- The `for (const file of directoryFromBuffer.files)` loop of `main`:
for each entry whose path passes the stylesheet filter, parse its content
(an external capability that can fail, aborting the loop like the thrown
exception does) and add the walker's colors to the global set. -/
def mainLoop {ε : Type} (parse : String → Except ε (List ChildNode))
    (acc : List String) : List ArchiveEntry → Except ε (List String)
  | [] => Except.ok acc
  | e :: rest =>
      if isCSSRequest e.path.data then
        match parse e.content with
        | Except.error err => Except.error err
        | Except.ok nodes => mainLoop parse (insertAll acc (recursion nodes)) rest
      else mainLoop parse acc rest

/-- `main` from `extract.ts`.  The fetch of the archive and its unzipping
are a single external capability producing either the entry list or a
failure (network error, non-success response, invalid archive); the
stylesheet parse is a second capability.  On success the color set is laid
out as a grid and serialized. -/
def mainE {ε : Type} (fetched : Except ε (List ArchiveEntry))
    (parse : String → Except ε (List ChildNode)) : Except ε String :=
  match fetched with
  | Except.error err => Except.error err
  | Except.ok entries =>
      match mainLoop parse [] entries with
      | Except.error err => Except.error err
      | Except.ok colors => Except.ok (toSvgAsString (toTwoDimensional colors 10))

/-- A handler response: status code and optional body (the response
headers are a fixed constant and are not modeled). -/
structure Response where
  statusCode : Nat
  body : Option String
deriving DecidableEq

/-- `handler` from `extract.ts`, paired with the number of network
fetches performed: missing query parameters short-circuit to a bare 400
before the fetch; otherwise `main` runs (exactly one fetch is attempted)
inside the `try/catch`, whose catch-arm maps every failure to a bare 500. -/
def handler {ε : Type} (searchParams : List (String × String))
    (fetched : Options → Except ε (List ArchiveEntry))
    (parse : String → Except ε (List ChildNode)) : Response × Nat :=
  match getSearchParams searchParams with
  | none => (⟨400, none⟩, 0)
  | some opts =>
      match mainE (fetched opts) parse with
      | Except.ok svg => (⟨200, some svg⟩, 1)
      | Except.error _ => (⟨500, none⟩, 1)

/-! ### Specification-side definitions

The following definitions restate parts of the specification in its own
words, to be compared with the embedded code. -/

/-- The spec's ordered-unique sequence: keep the first occurrence of each
element, in order ("an append-only sequence plus a membership-check
set"). -/
def firstSeen (l : List String) : List String :=
  l.foldl insertColor []

/-- The spec's flat color stream: per-file color sequences of the
stylesheet entries, concatenated "across files in archive order, and
within a file in document order". -/
def flatColors (entries : List ArchiveEntry) (net : String → List ChildNode) :
    List String :=
  (entries.filter fun e => isCSSRequest e.path.data).flatMap
    fun e => recursion (net e.content)

/-- The RGB triple denoted by a CSS hex color literal, per the spec: `#`
followed by 3 or 6 hex digits in either letter case; a 3-digit literal
abbreviates the 6-digit one with each digit doubled. -/
def hexDenote (s : String) : Option (Nat × Nat × Nat) :=
  match s.data with
  | '#' :: l =>
      (match l with
       | [a, b, c] => do
           let va ← hexVal a
           let vb ← hexVal b
           let vc ← hexVal c
           pure (17 * va, 17 * vb, 17 * vc)
       | [a, b, c, d, e, f] => do
           let va ← hexVal a
           let vb ← hexVal b
           let vc ← hexVal c
           let vd ← hexVal d
           let ve ← hexVal e
           let vf ← hexVal f
           pure (16 * va + vb, 16 * vc + vd, 16 * ve + vf)
       | _ => none)
  | _ => none

/-- The rect fragment the spec describes for the cell at row `i`, column
`j`: position `(j × 64, i × 64)`, size 64×64, filled with the cell's
color. -/
def rectSpec (x y : Nat) (color : String) : String :=
  "<rect x=\"" ++ toString x ++ "\" y=\"" ++ toString y ++
    "\" width=\"64\" height=\"64\" fill=\"" ++ color ++ "\" />"

/-- The rect fragments of one row, in column order, concatenated. -/
def rowRectsSpec (i : Nat) (j : Nat) : List String → String
  | [] => ""
  | c :: cs => rectSpec (j * 64) (i * 64) c ++ rowRectsSpec i (j + 1) cs

/-- The rect fragments of all rows, in row-major order, concatenated. -/
def gridRectsSpec (i : Nat) : List (List String) → String
  | [] => ""
  | row :: rows => rowRectsSpec i 0 row ++ gridRectsSpec (i + 1) rows

/-- The document the spec describes: fixed canvas width `640` regardless
of the grid's contents, height `rowCount × 64`, one rect per cell in
row-major order, and the closing tag. -/
def svgSpecDoc (g : List (List String)) : String :=
  "<svg\n  width=\"" ++ "640" ++ "\"\n  height=\"" ++ toString (g.length * 64) ++
    "\"\n  viewBox=\"0 0 " ++ "640" ++ " " ++ toString (g.length * 64) ++
    "\"\n  fill=\"none\"\n  xmlns=\"http://www.w3.org/2000/svg\"\n>" ++
    gridRectsSpec 0 g ++ "</svg>"

/-- Proof-side reformulation of `toTwoDimensional` at the program's row
width: successive chunks of 10 elements. -/
def chunks10 : List String → List (List String)
  | [] => []
  | c :: rest => ((c :: rest).take 10) :: chunks10 ((c :: rest).drop 10)
termination_by l => l.length
decreasing_by simp; omega

/-! ### Lemmas about the insertion-ordered set -/

theorem mem_insertColor {acc : List String} {c a : String} :
    a ∈ insertColor acc c ↔ a ∈ acc ∨ a = c := by
  unfold insertColor
  split
  · rename_i h
    constructor
    · exact fun ha => Or.inl ha
    · rintro (ha | rfl)
      · exact ha
      · exact h
  · simp [or_comm]

theorem mem_insertAll {l : List String} :
    ∀ {acc : List String} {a : String}, a ∈ insertAll acc l ↔ a ∈ acc ∨ a ∈ l := by
  induction l with
  | nil => simp [insertAll]
  | cons c rest ih =>
      intro acc a
      show a ∈ insertAll (insertColor acc c) rest ↔ _
      rw [ih, mem_insertColor]
      simp [or_assoc]

theorem insertAll_append (acc : List String) (l₁ l₂ : List String) :
    insertAll acc (l₁ ++ l₂) = insertAll (insertAll acc l₁) l₂ := by
  simp [insertAll, List.foldl_append]

theorem insertAll_structure (l : List String) :
    ∀ acc : List String, ∃ s : List String,
      insertAll acc l = acc ++ s ∧ s.Sublist l ∧ ∀ x ∈ s, x ∉ acc := by
  induction l with
  | nil => exact fun acc => ⟨[], by simp [insertAll]⟩
  | cons c rest ih =>
      intro acc
      show ∃ s, insertAll (insertColor acc c) rest = acc ++ s ∧ _
      by_cases hc : c ∈ acc
      · obtain ⟨s, hs, hsub, hna⟩ := ih acc
        refine ⟨s, ?_, hsub.cons c, hna⟩
        simpa [insertColor, hc] using hs
      · obtain ⟨s, hs, hsub, hna⟩ := ih (acc ++ [c])
        refine ⟨c :: s, ?_, hsub.cons₂ c, ?_⟩
        · simp only [insertColor, if_neg hc] at hs ⊢
          simpa using hs
        · intro x hx
          rcases hx with _ | hx
          · exact hc
          · have := hna x (by assumption)
            simp at this
            exact this.1

theorem nodup_insertAll (l : List String) :
    ∀ acc : List String, acc.Nodup → (insertAll acc l).Nodup := by
  induction l with
  | nil => exact fun acc h => h
  | cons c rest ih =>
      intro acc hacc
      show (insertAll (insertColor acc c) rest).Nodup
      apply ih
      unfold insertColor
      split
      · exact hacc
      · rename_i h
        simpa [List.nodup_append] using ⟨hacc, h⟩

theorem firstSeen_eq_insertAll (l : List String) : firstSeen l = insertAll [] l := rfl

theorem firstSeen_nodup (l : List String) : (firstSeen l).Nodup := by
  rw [firstSeen_eq_insertAll]
  exact nodup_insertAll l [] List.nodup_nil

theorem firstSeen_sublist (l : List String) : (firstSeen l).Sublist l := by
  obtain ⟨s, hs, hsub, -⟩ := insertAll_structure l []
  rw [firstSeen_eq_insertAll, hs]
  simpa using hsub

theorem mem_firstSeen {l : List String} {a : String} : a ∈ firstSeen l ↔ a ∈ l := by
  rw [firstSeen_eq_insertAll, mem_insertAll]
  simp

/-! ### Lemmas about the tree walk -/

theorem walkList_append (l₁ l₂ : List ChildNode) :
    ∀ acc, walkList acc (l₁ ++ l₂) = walkList (walkList acc l₁) l₂ := by
  induction l₁ with
  | nil => intro acc; rfl
  | cons n rest ih => intro acc; exact ih (walkNode acc n)

theorem mem_walkNode_of_mem_acc {a : String} {acc : List String} :
    ∀ n : ChildNode, a ∈ acc → a ∈ walkNode acc n := by
  intro n ha
  cases n with
  | rule ns => exact mem_insertAll.mpr (Or.inl ha)
  | atrule ns => exact ha
  | decl v => exact mem_insertAll.mpr (Or.inl ha)
  | comment t => exact ha

theorem mem_walkList_of_mem_acc {a : String} :
    ∀ (ns : List ChildNode) (acc : List String), a ∈ acc → a ∈ walkList acc ns := by
  intro ns
  induction ns with
  | nil => exact fun acc ha => ha
  | cons n rest ih =>
      intro acc ha
      exact ih (walkNode acc n) (mem_walkNode_of_mem_acc n ha)

theorem mem_walkList_cons_of_mem_walkNode {a : String} {acc : List String}
    {n : ChildNode} (rest : List ChildNode) (h : a ∈ walkNode acc n) :
    a ∈ walkList acc (n :: rest) :=
  mem_walkList_of_mem_acc rest (walkNode acc n) h

theorem mem_walkList_middle {a : String} {mid : ChildNode}
    (pre post : List ChildNode) (acc : List String)
    (h : ∀ acc', a ∈ walkNode acc' mid) :
    a ∈ walkList acc (pre ++ mid :: post) := by
  rw [walkList_append]
  exact mem_walkList_cons_of_mem_walkNode post (h (walkList acc pre))

/-- Iterated nesting of a node inside single-child rules. -/
def nestRules : Nat → ChildNode → ChildNode
  | 0, n => n
  | d + 1, n => ChildNode.rule [nestRules d n]

/-- **C10.** For every style tree, the Walker descends only into child
nodes of type `rule`: a subtree rooted at an at-rule node (e.g. a `@media`
block) is skipped entirely, wherever it occurs in the node sequence, so
declarations nested inside at-rule blocks never contribute any colors to
the result set. -/
theorem recursion_skips_atrule (pre post ns : List ChildNode) :
    recursion (pre ++ ChildNode.atrule ns :: post) = recursion (pre ++ post) := by
  show walkList [] (pre ++ ChildNode.atrule ns :: post) = walkList [] (pre ++ post)
  rw [walkList_append, walkList_append]
  rfl

/-- **C5.** For every style tree in which a rule node contains a nested
rule node containing a declaration with a color — in arbitrary context at
each of the three levels — the Walker finds that color; moreover the
recursion descends through single-child rule nesting of any depth. -/
theorem recursion_finds_nested (pre₁ pre₂ pre₃ post₁ post₂ post₃ : List ChildNode)
    (v c : String) (d : Nat) (h : c ∈ declColors v) :
    c ∈ recursion (pre₁ ++
          ChildNode.rule (pre₂ ++
            ChildNode.rule (pre₃ ++ ChildNode.decl v :: post₃) :: post₂) :: post₁) ∧
    c ∈ recursion [nestRules d (ChildNode.decl v)] := by
  have hdecl : ∀ acc', c ∈ walkNode acc' (ChildNode.decl v) := by
    intro acc'
    exact mem_insertAll.mpr (Or.inr h)
  have hinner : ∀ acc', c ∈ walkList acc' (pre₃ ++ ChildNode.decl v :: post₃) := by
    intro acc'
    exact mem_walkList_middle pre₃ post₃ acc' hdecl
  have hmid : ∀ acc', c ∈ walkNode acc'
      (ChildNode.rule (pre₃ ++ ChildNode.decl v :: post₃)) := by
    intro acc'
    exact mem_insertAll.mpr (Or.inr (hinner []))
  have houter : ∀ acc', c ∈ walkNode acc'
      (ChildNode.rule (pre₂ ++
        ChildNode.rule (pre₃ ++ ChildNode.decl v :: post₃) :: post₂)) := by
    intro acc'
    exact mem_insertAll.mpr (Or.inr (mem_walkList_middle pre₂ post₂ [] hmid))
  constructor
  · exact mem_walkList_middle pre₁ post₁ [] houter
  · induction d with
    | zero => exact mem_walkList_cons_of_mem_walkNode [] (hdecl [])
    | succ d ih =>
        show c ∈ walkList [] [ChildNode.rule [nestRules d (ChildNode.decl v)]]
        exact mem_walkList_cons_of_mem_walkNode []
          (mem_insertAll.mpr (Or.inr ih))

/-- Witness for `recursion_finds_nested`: the color `#FFFFFF` of the
declaration value `#fff` is found under two levels of rule nesting and
under depth-5 nesting. -/
theorem recursion_finds_nested_witness :
    "#FFFFFF" ∈ recursion [ChildNode.rule [ChildNode.rule [ChildNode.decl "#fff"]]] ∧
    "#FFFFFF" ∈ recursion [nestRules 5 (ChildNode.decl "#fff")] :=
  recursion_finds_nested [] [] [] [] [] [] "#fff" "#FFFFFF" 5 (by decide)

/-! ### The orchestrator's ordered-unique union -/

theorem mainLoop_ok {ε : Type} (parse : String → Except ε (List ChildNode))
    (net : String → List ChildNode) :
    ∀ (entries : List ArchiveEntry),
      (∀ e ∈ entries, isCSSRequest e.path.data = true →
          parse e.content = Except.ok (net e.content)) →
      ∀ acc, mainLoop parse acc entries =
        Except.ok (insertAll acc (flatColors entries net)) := by
  intro entries
  induction entries with
  | nil => intro _ acc; simp [mainLoop, flatColors, insertAll]
  | cons e rest ih =>
      intro hp acc
      show (if isCSSRequest e.path.data then _ else _) = _
      by_cases hcss : isCSSRequest e.path.data
      · rw [if_pos hcss, hp e (List.mem_cons_self e rest) hcss]
        show mainLoop parse (insertAll acc (recursion (net e.content))) rest = _
        rw [ih (fun x hx => hp x (List.mem_cons_of_mem e hx)) _]
        have hflat : flatColors (e :: rest) net
            = recursion (net e.content) ++ flatColors rest net := by
          simp [flatColors, List.filter_cons, hcss]
        rw [hflat, insertAll_append]
      · rw [if_neg hcss]
        rw [ih (fun x hx => hp x (List.mem_cons_of_mem e hx)) acc]
        have hflat : flatColors (e :: rest) net = flatColors rest net := by
          simp [flatColors, List.filter_cons, hcss]
        rw [hflat]

/-- **C3.** When every stylesheet entry parses, the pipeline produces one
global ordered-unique color sequence: the grid it serializes is built from
`firstSeen` of the flat color stream (per-file sequences concatenated in
archive order, each in document order), and that sequence has no
duplicates, preserves the stream's order (it is a sublist of it), and
contains exactly the colors of the stream — i.e. the first occurrence of
each canonical color determines its position and every later duplicate is
dropped without disturbing the others. -/
theorem mainE_ordered_unique {ε : Type} (entries : List ArchiveEntry)
    (net : String → List ChildNode) (parse : String → Except ε (List ChildNode))
    (hp : ∀ e ∈ entries, isCSSRequest e.path.data = true →
        parse e.content = Except.ok (net e.content)) :
    mainE (Except.ok entries) parse =
        Except.ok (toSvgAsString (toTwoDimensional (firstSeen (flatColors entries net)) 10)) ∧
    (firstSeen (flatColors entries net)).Nodup ∧
    (firstSeen (flatColors entries net)).Sublist (flatColors entries net) ∧
    (∀ c, c ∈ firstSeen (flatColors entries net) ↔ c ∈ flatColors entries net) := by
  refine ⟨?_, firstSeen_nodup _, firstSeen_sublist _, fun c => mem_firstSeen⟩
  show (match mainLoop parse [] entries with
        | Except.error err => Except.error err
        | Except.ok colors => Except.ok (toSvgAsString (toTwoDimensional colors 10))) = _
  rw [mainLoop_ok parse net entries hp []]
  rfl

/-- Witness for `mainE_ordered_unique`: one stylesheet with declarations
`#fff`, `rgb(0,0,0)`, `#fff` yields the ordered unique sequence
`[#FFFFFF, #000000]` (first occurrence wins, duplicate dropped), and the
pipeline serializes exactly that grid. -/
theorem mainE_ordered_unique_witness :
    mainE (Except.ok [ArchiveEntry.mk "a.css" "x"])
        (fun _ => (Except.ok [ChildNode.rule [ChildNode.decl "#fff",
          ChildNode.decl "rgb(0,0,0)", ChildNode.decl "#fff"]] : Except String _)) =
      Except.ok (toSvgAsString (toTwoDimensional (firstSeen (flatColors
        [ArchiveEntry.mk "a.css" "x"]
        (fun _ => [ChildNode.rule [ChildNode.decl "#fff",
          ChildNode.decl "rgb(0,0,0)", ChildNode.decl "#fff"]]))) 10)) ∧
    firstSeen (flatColors [ArchiveEntry.mk "a.css" "x"]
        (fun _ => [ChildNode.rule [ChildNode.decl "#fff",
          ChildNode.decl "rgb(0,0,0)", ChildNode.decl "#fff"]]))
      = ["#FFFFFF", "#000000"] :=
  ⟨(mainE_ordered_unique [ArchiveEntry.mk "a.css" "x"]
      (fun _ => [ChildNode.rule [ChildNode.decl "#fff",
        ChildNode.decl "rgb(0,0,0)", ChildNode.decl "#fff"]])
      (fun _ => Except.ok [ChildNode.rule [ChildNode.decl "#fff",
        ChildNode.decl "rgb(0,0,0)", ChildNode.decl "#fff"]])
      (fun _ _ _ => rfl)).1,
   by decide⟩

/-! ### The grid partition -/

theorem flatMap_congr {α β : Type} {l : List α} {f g : α → List β}
    (h : ∀ a ∈ l, f a = g a) : l.flatMap f = l.flatMap g := by
  induction l with
  | nil => rfl
  | cons x xs ih =>
      rw [List.flatMap_cons, List.flatMap_cons, h x (List.mem_cons_self x xs),
        ih (fun a ha => h a (List.mem_cons_of_mem x ha))]

theorem toTwoDimensional_step (arr : List String) (h : arr ≠ []) :
    toTwoDimensional arr 10 = arr.take 10 :: toTwoDimensional (arr.drop 10) 10 := by
  by_cases hle : arr.length ≤ 10
  · have hd : arr.drop 10 = [] := List.drop_eq_nil_iff.mpr hle
    have h2 : toTwoDimensional (arr.drop 10) 10 = [] := by
      rw [hd]; rfl
    rw [h2]
    obtain ⟨m, hm⟩ := Nat.exists_eq_succ_of_ne_zero
      (fun h0 => h (List.length_eq_zero.mp h0))
    show (List.range arr.length).flatMap _ = _
    rw [hm, List.range_succ_eq_map, List.flatMap_cons, List.flatMap_map]
    have hzero : (if 0 % 10 = 0 then [(arr.drop 0).take 10] else []) = [arr.take 10] := by
      simp
    rw [hzero]
    have hrest : (List.range m).flatMap
        (fun a => if Nat.succ a % 10 = 0 then [(arr.drop (Nat.succ a)).take 10] else [])
        = [] := by
      rw [List.flatMap_eq_nil_iff]
      intro i hi
      have him : i < m := List.mem_range.mp hi
      have : Nat.succ i % 10 = Nat.succ i := Nat.mod_eq_of_lt (by omega)
      rw [this, if_neg (by omega)]
    rw [hrest]
    rfl
  · have hsplit : arr.length = 10 + (arr.length - 10) := by omega
    show (List.range arr.length).flatMap _ = _
    rw [hsplit, List.range_add, List.flatMap_append, List.flatMap_map]
    have hfirst : (List.range 10).flatMap
        (fun i => if i % 10 = 0 then [(arr.drop i).take 10] else [])
        = [arr.take 10] := by
      simp [List.range_succ]
    have hsecond : (List.range (arr.length - 10)).flatMap
        (fun a => if (10 + a) % 10 = 0 then [(arr.drop (10 + a)).take 10] else [])
        = toTwoDimensional (arr.drop 10) 10 := by
      show _ = (List.range (arr.drop 10).length).flatMap _
      rw [List.length_drop]
      apply flatMap_congr
      intro i _
      rw [Nat.add_mod_left, List.drop_drop]
    rw [hfirst, hsecond]
    rfl

theorem toTwoDimensional_eq_chunks10 (arr : List String) :
    toTwoDimensional arr 10 = chunks10 arr := by
  induction arr using chunks10.induct with
  | case1 => rw [chunks10]; rfl
  | case2 c rest ih =>
      rw [toTwoDimensional_step (c :: rest) (by simp), ih]
      conv_rhs => rw [chunks10]

theorem chunks10_eq_nil_iff (l : List String) : chunks10 l = [] ↔ l = [] := by
  constructor
  · intro h
    cases l with
    | nil => rfl
    | cons c rest => rw [chunks10] at h; exact absurd h (by simp)
  · intro h
    rw [h, chunks10]

theorem chunks10_length (l : List String) :
    (chunks10 l).length = (l.length + 9) / 10 := by
  induction l using chunks10.induct with
  | case1 => rw [chunks10]; rfl
  | case2 c rest ih =>
      rw [chunks10]
      simp only [List.length_cons, ih, List.length_drop]
      omega

theorem chunks10_dropLast (l : List String) :
    ∀ row ∈ (chunks10 l).dropLast, row.length = 10 := by
  induction l using chunks10.induct with
  | case1 =>
      intro row h
      rw [chunks10] at h
      exact absurd h (by simp)
  | case2 c rest ih =>
      intro row hrow
      rw [chunks10] at hrow
      rcases hM : chunks10 ((c :: rest).drop 10) with _ | ⟨d, ds⟩
      · rw [hM] at hrow
        simp at hrow
      · rw [hM, List.dropLast_cons₂] at hrow
        have hlen : 10 < (c :: rest).length := by
          rcases Nat.lt_or_ge 10 (c :: rest).length with hlt | hge
          · exact hlt
          · exfalso
            have hnil : (c :: rest).drop 10 = [] := List.drop_eq_nil_iff.mpr hge
            rw [hnil] at hM
            rw [chunks10] at hM
            cases hM
        rcases List.mem_cons.mp hrow with heq | hmem
        · subst heq
          simp only [List.length_take, List.length_cons] at *
          omega
        · rw [← hM] at hmem
          exact ih row hmem

theorem chunks10_getLast (l : List String) :
    ∀ row, (chunks10 l).getLast? = some row →
      row.length = if l.length % 10 = 0 then 10 else l.length % 10 := by
  induction l using chunks10.induct with
  | case1 =>
      intro row h
      rw [chunks10] at h
      exact absurd h (by simp)
  | case2 c rest ih =>
      intro row hrow
      rw [chunks10] at hrow
      rcases hM : chunks10 ((c :: rest).drop 10) with _ | ⟨d, ds⟩
      · rw [hM] at hrow
        have hle : (c :: rest).length ≤ 10 := by
          rcases Nat.lt_or_ge 10 (c :: rest).length with hlt | hge
          · exfalso
            have hne : (c :: rest).drop 10 ≠ [] := by
              intro hnil
              rw [List.drop_eq_nil_iff] at hnil
              omega
            exact hne ((chunks10_eq_nil_iff _).mp hM)
          · exact hge
        simp only [List.getLast?_singleton, Option.some_inj] at hrow
        subst hrow
        simp only [List.length_take, List.length_cons] at *
        split <;> omega
      · rw [hM, List.getLast?_cons_cons, ← hM] at hrow
        have hres := ih row hrow
        have hlen : 10 < (c :: rest).length := by
          rcases Nat.lt_or_ge 10 (c :: rest).length with hlt | hge
          · exact hlt
          · exfalso
            have hnil : (c :: rest).drop 10 = [] := List.drop_eq_nil_iff.mpr hge
            rw [hnil, chunks10] at hM
            cases hM
        rw [List.length_drop] at hres
        simp only [List.length_cons] at *
        split_ifs at hres ⊢ <;> omega

/-- **C4.** For every ColorSet of size `N`, the grid has `⌈N/10⌉` rows
(`(N+9)/10`), every row before the last has exactly 10 cells, the last row
has `N % 10` cells — or 10 when `N` is a positive multiple of 10 — and
`N = 0` gives zero rows.  (When `N % 10 ≠ 0` the rows before the last are
exactly the first `⌊N/10⌋` rows; when `N % 10 = 0` the last row also has
10 cells, so all `⌊N/10⌋` rows do.) -/
theorem toTwoDimensional_partition (arr : List String) :
    (toTwoDimensional arr 10).length = (arr.length + 9) / 10 ∧
    (∀ row ∈ (toTwoDimensional arr 10).dropLast, row.length = 10) ∧
    (∀ row, (toTwoDimensional arr 10).getLast? = some row →
        row.length = if arr.length % 10 = 0 then 10 else arr.length % 10) ∧
    (arr.length = 0 → toTwoDimensional arr 10 = []) := by
  rw [toTwoDimensional_eq_chunks10]
  refine ⟨chunks10_length arr, chunks10_dropLast arr, chunks10_getLast arr, ?_⟩
  intro h0
  exact (chunks10_eq_nil_iff arr).mpr (List.length_eq_zero.mp h0)

/-- Witness for `toTwoDimensional_partition`: a 12-element ColorSet gives
2 rows, the first with 10 cells and the last with `12 % 10 = 2`. -/
theorem toTwoDimensional_partition_witness :
    (toTwoDimensional ["a", "b", "c", "d", "e", "f", "g", "h", "i", "j", "k", "l"] 10).length
        = 2 ∧
    (∀ row ∈ (toTwoDimensional
        ["a", "b", "c", "d", "e", "f", "g", "h", "i", "j", "k", "l"] 10).dropLast,
      row.length = 10) ∧
    (toTwoDimensional ["a", "b", "c", "d", "e", "f", "g", "h", "i", "j", "k", "l"] 10).getLast?
        = some ["k", "l"] ∧
    (["k", "l"] : List String).length = 2 := by
  have h := toTwoDimensional_partition
    ["a", "b", "c", "d", "e", "f", "g", "h", "i", "j", "k", "l"]
  exact ⟨h.1.trans (by decide), h.2.1, by decide,
    (h.2.2.1 ["k", "l"] (by decide)).trans (by decide)⟩

/-! ### The vector document -/

theorem svgRowLoop_eq (row : List String) :
    ∀ (s : String) (i j : Nat), svgRowLoop s i j row = s ++ rowRectsSpec i j row := by
  induction row with
  | nil => intro s i j; exact (String.append_empty s).symm
  | cons c cs ih =>
      intro s i j
      show svgRowLoop (s ++ rectString i j c) i (j + 1) cs = _
      rw [ih, String.append_assoc]
      rfl

theorem svgRowsLoop_eq (g : List (List String)) :
    ∀ (s : String) (i : Nat), svgRowsLoop s i g = s ++ gridRectsSpec i g := by
  induction g with
  | nil => intro s i; exact (String.append_empty s).symm
  | cons row rows ih =>
      intro s i
      show svgRowsLoop (svgRowLoop s i 0 row) (i + 1) rows = _
      rw [ih, svgRowLoop_eq, String.append_assoc]
      rfl

/-- **C7.** For every ordered color grid, the rendered document is
exactly the spec's document: canvas width `640` (independent of the last
row's cell count), height `rowCount × 64`, one rect per cell at
`(j × 64, i × 64)` of size 64×64 filled with the cell's color, in
row-major order; the empty ColorSet yields the zero-row, zero-height,
width-640 document with no rects and balanced tags. -/
theorem toSvgAsString_spec (g : List (List String)) :
    toSvgAsString g = svgSpecDoc g ∧
    toSvgAsString [] =
      "<svg\n  width=\"640\"\n  height=\"0\"\n  viewBox=\"0 0 640 0\"\n  fill=\"none\"\n  xmlns=\"http://www.w3.org/2000/svg\"\n></svg>" := by
  constructor
  · show svgRowsLoop (svgOpen g.length) 0 g ++ "</svg>" = _
    rw [svgRowsLoop_eq]
    simp only [svgOpen, svgSpecDoc]
    rw [Nat.mul_comm 64 g.length]
    rfl
  · decide

/-! ### Anchoring of the extraction regex -/

theorem findMatches_length_le_one :
    ∀ (l : List Char) (b : Bool), (findMatches l b).length ≤ 1 := by
  intro l
  induction l with
  | nil => intro b; exact Nat.zero_le 1
  | cons c rest ih =>
      intro b
      show (if attemptAt b (c :: rest) then [c :: rest] else findMatches rest false).length ≤ 1
      split
      · exact Nat.le_refl 1
      · exact ih false

theorem mem_findMatches {m : List Char} :
    ∀ {l : List Char} {b : Bool}, m ∈ findMatches l b →
      m.IsSuffix l ∧ ((b = true ∧ m = l) ∨ rgbBranch m = true) := by
  intro l
  induction l with
  | nil => intro b h; exact absurd h (by simp [findMatches])
  | cons c rest ih =>
      intro b h
      rw [show findMatches (c :: rest) b
          = (if attemptAt b (c :: rest) then [c :: rest] else findMatches rest false)
          from rfl] at h
      split at h
      · rename_i hatt
        rcases List.mem_singleton.mp h with rfl
        refine ⟨List.suffix_refl _, ?_⟩
        rcases Bool.or_eq_true_iff.mp hatt with hhex | hrgb
        · exact Or.inl ⟨(Bool.and_eq_true_iff.mp hhex).1, rfl⟩
        · exact Or.inr hrgb
      · obtain ⟨hsuf, hcase⟩ := ih h
        refine ⟨hsuf.trans (List.suffix_cons c rest), ?_⟩
        rcases hcase with ⟨hfalse, -⟩ | hrgb
        · exact absurd hfalse (by simp)
        · exact Or.inr hrgb

theorem hexBranch_head {m : List Char} (h : hexBranch m = true) :
    ∃ rest, m = '#' :: rest := by
  cases m with
  | nil => exact absurd h (by decide)
  | cons c rest =>
      simp only [hexBranch, Bool.and_eq_true, beq_iff_eq] at h
      exact ⟨rest, by rw [h.1.1]⟩

theorem rgbBranch_not_hash {m : List Char} {rest : List Char}
    (hm : m = '#' :: rest) : rgbBranch m = false := by
  subst hm
  cases rest with
  | nil => rfl
  | cons c2 rest2 =>
      cases rest2 with
      | nil => rfl
      | cons c3 rest3 => rfl

/-- **C1 (amended).** The extraction pattern is anchored: each alternative
must extend to the end of the declaration value, and the hex alternative
additionally to its start.  Hence a declaration value yields at most one
match, every match is a suffix of the value, and a hex match is the entire
value — so a value containing several color references (e.g. a gradient)
contributes at most one color, not all of them. -/
theorem jsMatch_anchored (v : String) :
    (jsMatch v).length ≤ 1 ∧
    (∀ m ∈ jsMatch v, m.data.IsSuffix v.data) ∧
    (∀ m ∈ jsMatch v, hexBranch m.data = true → m = v) := by
  refine ⟨?_, ?_, ?_⟩
  · show ((findMatches v.data true).map String.mk).length ≤ 1
    rw [List.length_map]
    exact findMatches_length_le_one v.data true
  · intro m hm
    obtain ⟨md, hmem, hmk⟩ := List.mem_map.mp hm
    obtain ⟨hsuf, -⟩ := mem_findMatches hmem
    rw [← hmk]
    exact hsuf
  · intro m hm hhex
    obtain ⟨md, hmem, hmk⟩ := List.mem_map.mp hm
    obtain ⟨-, hcase⟩ := mem_findMatches hmem
    rcases hcase with ⟨-, rfl⟩ | hrgb
    · rw [← hmk]
    · rw [← hmk] at hhex
      obtain ⟨rest, hrest⟩ := hexBranch_head hhex
      rw [rgbBranch_not_hash hrest] at hrgb
      cases hrgb

/-- Witness for `jsMatch_anchored`: in the value `1px solid rgb(0,0,0)`
the single match is the trailing rgb token, a suffix of the value. -/
theorem jsMatch_anchored_witness :
    (jsMatch "1px solid rgb(0,0,0)").length ≤ 1 ∧
    ("rgb(0,0,0)" : String).data.IsSuffix ("1px solid rgb(0,0,0)" : String).data :=
  ⟨(jsMatch_anchored "1px solid rgb(0,0,0)").1,
   (jsMatch_anchored "1px solid rgb(0,0,0)").2.1 "rgb(0,0,0)" (by decide)⟩

/-- **C1 (counterexample).** The gradient declaration value
`linear-gradient(#fff, #000)` contains two substrings of color lexical
shape (`#fff` normalizes to `#FFFFFF`), yet the walker extracts no color
at all from it: the anchored pattern matches nothing inside the value. -/
theorem gradient_contributes_nothing :
    recursion [ChildNode.decl "linear-gradient(#fff, #000)"] = [] ∧
    normalizeToken "#fff" = some "#FFFFFF" ∧
    normalizeToken "#000" = some "#000000" := by
  refine ⟨?_, by decide, by decide⟩
  show insertAll [] (declColors "linear-gradient(#fff, #000)") = []
  decide

/-! ### The normalizer and the alpha channel -/

/-- The alpha component makes no contribution to `cs.to.hex`'s output:
either it is absent (`NaN`) or it does not compare `< 1`. -/
def alphaOmitted : Option Frac → Prop
  | none => True
  | some q => q.lt1 = false

theorem normalizeToken_eq {s : String} {c : Rgba} (h : csGetRgb s = some c) :
    normalizeToken s = some (csToHex c) := by
  unfold normalizeToken
  rw [h]
  rfl

theorem csToHex_alphaOmitted (c : Rgba) (h : alphaOmitted c.a) :
    csToHex c = "#" ++ hexDouble c.r ++ hexDouble c.g ++ hexDouble c.b := by
  unfold csToHex
  rcases hca : c.a with _ | q
  · exact String.append_empty _
  · have hq : Frac.lt1 q = false := by rw [hca] at h; exact h
    show _ ++ (if Frac.lt1 q = true then hexDouble q.roundTimes255 else "") = _
    rw [hq]
    show _ ++ "" = _
    exact String.append_empty _

theorem csToHex_alphaByte (c : Rgba) (q : Frac) (hca : c.a = some q)
    (hq : q.lt1 = true) :
    csToHex c = "#" ++ hexDouble c.r ++ hexDouble c.g ++ hexDouble c.b
      ++ hexDouble q.roundTimes255 := by
  unfold csToHex
  rw [hca]
  show _ ++ (if Frac.lt1 q = true then hexDouble q.roundTimes255 else "") = _
  rw [hq]
  rfl

/-- **C2 (amended).** The Normalizer's output coincides for two parsed
colors with the same RGB channels exactly when neither contributes an
alpha byte (alpha absent, `NaN`, or not `< 1` after clamping); when the
parsed alpha compares `< 1`, the output instead appends the rounded alpha
byte after the three channel bytes (an 8-digit form), so the alpha channel
is not ignored in general. -/
theorem normalizeToken_alpha_dependence (s₁ s₂ : String) (c₁ c₂ : Rgba)
    (h₁ : csGetRgb s₁ = some c₁) (h₂ : csGetRgb s₂ = some c₂)
    (hr : c₁.r = c₂.r) (hg : c₁.g = c₂.g) (hb : c₁.b = c₂.b) :
    (alphaOmitted c₁.a → alphaOmitted c₂.a →
        normalizeToken s₁ = normalizeToken s₂ ∧
        normalizeToken s₁ = some ("#" ++ hexDouble c₁.r ++ hexDouble c₁.g
          ++ hexDouble c₁.b)) ∧
    (∀ q, c₂.a = some q → q.lt1 = true →
        normalizeToken s₂ = some ("#" ++ hexDouble c₂.r ++ hexDouble c₂.g
          ++ hexDouble c₂.b ++ hexDouble q.roundTimes255)) := by
  constructor
  · intro ha1 ha2
    constructor
    · rw [normalizeToken_eq h₁, normalizeToken_eq h₂,
        csToHex_alphaOmitted c₁ ha1, csToHex_alphaOmitted c₂ ha2, hr, hg, hb]
    · rw [normalizeToken_eq h₁, csToHex_alphaOmitted c₁ ha1]
  · intro q hq hlt
    rw [normalizeToken_eq h₂, csToHex_alphaByte c₂ q hq hlt]

/-- Witness for `normalizeToken_alpha_dependence`: `rgb(255,0,0)` and
`rgba(255, 0, 0, 1)` normalize identically (alpha 1 contributes nothing),
and `rgba(255, 0, 0, 0.5)` gets the alpha byte `80` appended. -/
theorem normalizeToken_alpha_dependence_witness :
    (normalizeToken "rgb(255,0,0)" = normalizeToken "rgba(255, 0, 0, 1)" ∧
      normalizeToken "rgb(255,0,0)" = some ("#" ++ hexDouble 255 ++ hexDouble 0
        ++ hexDouble 0)) ∧
    normalizeToken "rgba(255, 0, 0, 0.5)" = some ("#" ++ hexDouble 255 ++ hexDouble 0
      ++ hexDouble 0 ++ hexDouble (Frac.roundTimes255 ⟨5, 10⟩)) :=
  ⟨(normalizeToken_alpha_dependence "rgb(255,0,0)" "rgba(255, 0, 0, 1)"
      ⟨255, 0, 0, some ⟨1, 1⟩⟩ ⟨255, 0, 0, some ⟨1, 1⟩⟩
      (by decide) (by decide) rfl rfl rfl).1 rfl rfl,
   (normalizeToken_alpha_dependence "rgb(255,0,0)" "rgba(255, 0, 0, 0.5)"
      ⟨255, 0, 0, some ⟨1, 1⟩⟩ ⟨255, 0, 0, some ⟨5, 10⟩⟩
      (by decide) (by decide) rfl rfl rfl).2 ⟨5, 10⟩ rfl rfl⟩

/-- **C2 (counterexample).** `rgb(255,0,0)` and `rgba(255, 0, 0, 0.5)`
have equivalent RGB channel values, yet the Normalizer maps them to
different strings — the second keeps its alpha as a trailing byte and is
not a 6-digit hex form. -/
theorem normalizeToken_alpha_counterexample :
    normalizeToken "rgb(255,0,0)" = some "#FF0000" ∧
    normalizeToken "rgba(255, 0, 0, 0.5)" = some "#FF000080" ∧
    ("#FF000080" : String) ≠ "#FF0000" ∧
    ("#FF000080" : String).length ≠ 7 := by
  exact ⟨by decide, by decide, by decide, by decide⟩

/-! ### Hex literals -/

theorem hexDenote_csGetRgb {s : String} {r g b : Nat}
    (h : hexDenote s = some (r, g, b)) :
    csGetRgb s = some ⟨r, g, b, some ⟨1, 1⟩⟩ := by
  unfold hexDenote at h
  split at h
  case h_2 => exact absurd h (by simp)
  case h_1 l heq =>
    unfold csGetRgb
    rw [heq]
    show csHexBody l = _
    split at h
    case h_3 => exact absurd h (by simp)
    case h_1 a d c =>
      simp only [Option.pure_def, Option.bind_eq_bind, Option.bind_eq_some,
        Option.some.injEq, Prod.mk.injEq] at h
      obtain ⟨va, hva, vb, hvb, vc, hvc, hrr, hgg, hbb⟩ := h
      show csHexBody [a, d, c] = _
      simp only [csHexBody, hva, hvb, hvc, Option.pure_def, Option.bind_eq_bind,
        Option.some_bind, Option.some.injEq]
      rw [← hrr, ← hgg, ← hbb]
    case h_2 a d c x e f =>
      simp only [Option.pure_def, Option.bind_eq_bind, Option.bind_eq_some,
        Option.some.injEq, Prod.mk.injEq] at h
      obtain ⟨va, hva, vb, hvb, vc, hvc, vd, hvd, ve, hve, vf, hvf, hrr, hgg, hbb⟩ := h
      show csHexBody [a, d, c, x, e, f] = _
      simp only [csHexBody, hva, hvb, hvc, hvd, hve, hvf, Option.pure_def,
        Option.bind_eq_bind, Option.some_bind, Option.some.injEq]
      rw [← hrr, ← hgg, ← hbb]

/-- **C6.** Two hex color literals (3- or 6-digit, any letter case) that
denote the same RGB color normalize to the same canonical 6-digit string,
whose three channel bytes are exactly the denoted channels (in the
normalizer's fixed uppercase letter case), regardless of input style. -/
theorem normalizeToken_hex_canonical (s₁ s₂ : String) (r g b : Nat)
    (h₁ : hexDenote s₁ = some (r, g, b)) (h₂ : hexDenote s₂ = some (r, g, b)) :
    normalizeToken s₁ = some ("#" ++ hexDouble r ++ hexDouble g ++ hexDouble b) ∧
    normalizeToken s₁ = normalizeToken s₂ := by
  have hc₁ := hexDenote_csGetRgb h₁
  have hc₂ := hexDenote_csGetRgb h₂
  have e₁ : normalizeToken s₁ = some (csToHex ⟨r, g, b, some ⟨1, 1⟩⟩) :=
    normalizeToken_eq hc₁
  have e₂ : normalizeToken s₂ = some (csToHex ⟨r, g, b, some ⟨1, 1⟩⟩) :=
    normalizeToken_eq hc₂
  refine ⟨?_, e₁.trans e₂.symm⟩
  rw [e₁, csToHex_alphaOmitted ⟨r, g, b, some ⟨1, 1⟩⟩ rfl]

/-- Witness for `normalizeToken_hex_canonical`: `#abc` and `#AABBCC` both
denote `(170, 187, 204)` and normalize identically, to the canonical
`#AABBCC`. -/
theorem normalizeToken_hex_canonical_witness :
    (normalizeToken "#abc" = some ("#" ++ hexDouble 170 ++ hexDouble 187
        ++ hexDouble 204) ∧
      normalizeToken "#abc" = normalizeToken "#AABBCC") ∧
    normalizeToken "#abc" = some "#AABBCC" :=
  ⟨normalizeToken_hex_canonical "#abc" "#AABBCC" 170 187 204 (by decide) (by decide),
   by decide⟩

/-! ### The handler boundary -/

theorem mainLoop_error {ε : Type} (parse : String → Except ε (List ChildNode)) :
    ∀ (entries : List ArchiveEntry) (e : ArchiveEntry), e ∈ entries →
      isCSSRequest e.path.data = true → (∃ err, parse e.content = Except.error err) →
      ∀ acc, ∃ err', mainLoop parse acc entries = Except.error err' := by
  intro entries
  induction entries with
  | nil => intro e he; exact absurd he (by simp)
  | cons x rest ih =>
      intro e he hcss hperr acc
      rcases List.mem_cons.mp he with rfl | hmem
      · obtain ⟨err, herr⟩ := hperr
        refine ⟨err, ?_⟩
        show (if isCSSRequest e.path.data then _ else _) = _
        rw [if_pos hcss, herr]
      · show ∃ err', (if isCSSRequest x.path.data then _ else _) = Except.error err'
        by_cases hx : isCSSRequest x.path.data
        · rw [if_pos hx]
          rcases hpx : parse x.content with err | nodes
          · exact ⟨err, rfl⟩
          · exact ih e hmem hcss hperr _
        · rw [if_neg hx]
          exact ih e hmem hcss hperr acc

/-- **C8.** Every fatal pipeline failure — the fetch/unzip capability
failing, or any stylesheet entry whose content fails to parse — is caught
at the single handler boundary and mapped to a bare status 500 with no
body: no partial result (no colors from other stylesheets) is returned. -/
theorem handler_failure {ε : Type} (sp : List (String × String))
    (fetched : Options → Except ε (List ArchiveEntry))
    (parse : String → Except ε (List ChildNode)) (opts : Options)
    (hopts : getSearchParams sp = some opts)
    (hfail : (∃ err, fetched opts = Except.error err) ∨
      (∃ entries, fetched opts = Except.ok entries ∧
        ∃ e ∈ entries, isCSSRequest e.path.data = true ∧
          ∃ err, parse e.content = Except.error err)) :
    handler sp fetched parse = (⟨500, none⟩, 1) := by
  unfold handler
  rw [hopts]
  show (match mainE (fetched opts) parse with
        | Except.ok svg => ((⟨200, some svg⟩ : Response), 1)
        | Except.error _ => ((⟨500, none⟩ : Response), 1)) = _
  rcases hfail with ⟨err, herr⟩ | ⟨entries, hok, e, hmem, hcss, hperr⟩
  · rw [show mainE (fetched opts) parse = Except.error err from by
      unfold mainE; rw [herr]]
  · obtain ⟨err', hloop⟩ := mainLoop_error parse entries e hmem hcss hperr []
    rw [show mainE (fetched opts) parse = Except.error err' from by
      unfold mainE
      rw [hok]
      show (match mainLoop parse [] entries with
            | Except.error err => Except.error err
            | Except.ok colors => Except.ok (toSvgAsString (toTwoDimensional colors 10))) = _
      rw [hloop]]

/-- Witness for `handler_failure`: with all three parameters present, an
archive holding one stylesheet whose parse fails, the handler answers 500
with no body (and the one fetch was attempted). -/
theorem handler_failure_witness :
    handler [("repo", "r"), ("owner", "o"), ("branch", "b")]
      (fun _ => (Except.ok [ArchiveEntry.mk "a.css" "not a stylesheet"] : Except String _))
      (fun _ => Except.error "parse failure")
      = (⟨500, none⟩, 1) :=
  handler_failure [("repo", "r"), ("owner", "o"), ("branch", "b")]
    (fun _ => Except.ok [ArchiveEntry.mk "a.css" "not a stylesheet"])
    (fun _ => Except.error "parse failure")
    ⟨"r", "o", "b"⟩ (by decide)
    (Or.inr ⟨[ArchiveEntry.mk "a.css" "not a stylesheet"], rfl,
      ArchiveEntry.mk "a.css" "not a stylesheet", List.mem_cons_self _ _, by decide,
      "parse failure", rfl⟩)

/-- **C9.** When any of the three required query parameters (`repo`,
`owner`, `branch`) is absent, the handler answers a bare 400 — empty
body — and performs no network fetch (the zero fetch count, and the
conclusion holding for every fetch capability, show the short-circuit
happens before any network I/O). -/
theorem handler_missing_param {ε : Type} (sp : List (String × String))
    (fetched : Options → Except ε (List ArchiveEntry))
    (parse : String → Except ε (List ChildNode))
    (h : sp.lookup "repo" = none ∨ sp.lookup "owner" = none ∨
      sp.lookup "branch" = none) :
    handler sp fetched parse = (⟨400, none⟩, 0) := by
  have hnone : getSearchParams sp = none := by
    unfold getSearchParams
    rcases h with h | h | h <;> rw [h] <;> simp
  unfold handler
  rw [hnone]

/-- Witness for `handler_missing_param`: a request with `repo` and
`owner` but no `branch` gets a bare 400 and no fetch. -/
theorem handler_missing_param_witness :
    handler [("repo", "r"), ("owner", "o")]
      (fun _ => (Except.error "unreached" : Except String (List ArchiveEntry)))
      (fun _ => Except.error "unreached")
      = (⟨400, none⟩, 0) :=
  handler_missing_param [("repo", "r"), ("owner", "o")]
    (fun _ => Except.error "unreached") (fun _ => Except.error "unreached")
    (Or.inr (Or.inr (by decide)))

end ColorExtractor
